import Mathlib

/-!
Shallow embedding of the LangPro chat server (`src/server.js`), the
authoritative variant of the repository.  The server keeps, in module-level
state (`GlobalState` in the source):
  * `activeUsers`  : Map socket.id -> user profile,
  * `activeRooms`  : Map roomId -> room metadata,
  * `matchmaking`  : a fixed object with the six tier keys A1..C2, each an
                     array of queue entries,
  * `performance`  : counters (totalMatches, failedSignals, messagesProcessed).
Per-socket mutable data used by the handlers is the `currentRoomId` field
stored on the socket object, plus the socket.io layer itself: the set of live
sockets (`io.sockets.sockets`) and room membership created by `socket.join`.
All of that is modelled below as one explicit `ServerState`, and the
socket.io event handlers become a `step : ServerState -> Event -> StepResult`
function.  Emitted events (`socket.emit`, `socket.to(room).emit`) are
collected in the `emits` list of the result; a JavaScript exception escaping
a handler (which happens in `processMatchmaking` when an unknown tier string
is used, because `GlobalState.matchmaking[level]` is `undefined`) is recorded
in the `threw` flag.  Room ids `lp_room_<uuid>` are modelled with a fresh
counter, wall-clock time with a `now : Nat` field that only the periodic
sweeper advances (no handler reads absolute time except for timestamps).
-/

namespace ChatServer

/-- Association-list lookup, modelling JavaScript `Map.get`. -/
def getA {α : Type} (l : List (String × α)) (k : String) : Option α :=
  match l with
  | [] => none
  | (k', v) :: t => if k' = k then some v else getA t k

/-- Remove a key, modelling `Map.delete`. -/
def eraseA {α : Type} (l : List (String × α)) (k : String) : List (String × α) :=
  l.filter (fun p => ¬ p.1 = k)

/-- Insert or overwrite a key, modelling `Map.set` / property assignment. -/
def setA {α : Type} (l : List (String × α)) (k : String) (v : α) : List (String × α) :=
  (k, v) :: eraseA l k

/-- A matchmaking queue entry: `{ id: socket.id, name: userData.name }`
(server.js line 138). -/
structure Entry where
  id : String
  name : String
deriving DecidableEq, Repr

/-- A registered user profile (`userProfile` in the `register_user` handler). -/
structure UserProfile where
  id : String
  name : String
  level : String
  joinedAt : Nat
deriving DecidableEq, Repr

/-- Room metadata (`roomMetadata` stored in `GlobalState.activeRooms`). -/
structure RoomMeta where
  id : String
  participants : List String
  level : String
  startTime : Nat
deriving DecidableEq, Repr

/-- The `GlobalState.performance` counters that the handlers mutate. -/
structure Perf where
  totalMatches : Nat
  failedSignals : Nat
  messagesProcessed : Nat
deriving DecidableEq, Repr

/-- `GlobalState.matchmaking`: a fixed-shape object with exactly the six tier
keys; no code ever adds or removes a key. -/
structure Queues where
  qA1 : List Entry
  qA2 : List Entry
  qB1 : List Entry
  qB2 : List Entry
  qC1 : List Entry
  qC2 : List Entry
deriving DecidableEq, Repr

/-- `GlobalState.matchmaking[level]`: `none` models the JavaScript value
`undefined` obtained for an unrecognized tier string. -/
def queueOf (qs : Queues) (lvl : String) : Option (List Entry) :=
  if lvl = "A1" then some qs.qA1
  else if lvl = "A2" then some qs.qA2
  else if lvl = "B1" then some qs.qB1
  else if lvl = "B2" then some qs.qB2
  else if lvl = "C1" then some qs.qC1
  else if lvl = "C2" then some qs.qC2
  else none

/-- Write back a tier's queue array; a no-op on an unrecognized tier (such a
write never happens in the source, which throws first). -/
def setQueue (qs : Queues) (lvl : String) (v : List Entry) : Queues :=
  if lvl = "A1" then { qs with qA1 := v }
  else if lvl = "A2" then { qs with qA2 := v }
  else if lvl = "B1" then { qs with qB1 := v }
  else if lvl = "B2" then { qs with qB2 := v }
  else if lvl = "C1" then { qs with qC1 := v }
  else if lvl = "C2" then { qs with qC2 := v }
  else qs

/-- The disconnect handler's sweep
`Object.keys(matchmaking).forEach(lvl => filter(u => u.id !== socket.id))`. -/
def removeId (qs : Queues) (sid : String) : Queues where
  qA1 := qs.qA1.filter (fun e => ¬ e.id = sid)
  qA2 := qs.qA2.filter (fun e => ¬ e.id = sid)
  qB1 := qs.qB1.filter (fun e => ¬ e.id = sid)
  qB2 := qs.qB2.filter (fun e => ¬ e.id = sid)
  qC1 := qs.qC1.filter (fun e => ¬ e.id = sid)
  qC2 := qs.qC2.filter (fun e => ¬ e.id = sid)

/-- An outbound socket.io event emitted by the server. -/
inductive OutEvent where
  | sysError (msg : String)
  | matchFound (roomId : String) (partnerName : String) (partnerLevel : String) (role : String)
  | signal (data : String)
  | message (sender : String) (text : String) (time : Nat)
  | partnerTyping (status : Bool)
  | partnerDisconnected
deriving DecidableEq, Repr

/-- A delivery of one outbound event to one socket. -/
structure Emit where
  target : String
  event : OutEvent
deriving DecidableEq, Repr

/-- The whole server state: global maps, the six queues, counters, plus the
socket.io layer (live sockets, room membership, each socket's
`currentRoomId`), a fresh-uuid counter and the clock. -/
structure ServerState where
  connected : List String
  users : List (String × UserProfile)
  rooms : List (String × RoomMeta)
  queues : Queues
  roomOf : List (String × String)
  members : List (String × String)
  perf : Perf
  fresh : Nat
  now : Nat
deriving DecidableEq, Repr

def initialState : ServerState :=
  ⟨[], [], [], ⟨[], [], [], [], [], []⟩, [], [], ⟨0, 0, 0⟩, 0, 0⟩

/-- `ROOM_ID_PREFIX + uuidv4()`, with the uuid modelled by a counter. -/
def newRoomId (n : Nat) : String := "lp_room_" ++ toString n

/-- Targets of `socket.to(room).emit(..)`: every socket that joined `room`
other than the sender. -/
def roomTargets (st : ServerState) (room : String) (sender : String) : List String :=
  (st.members.filter (fun p => p.1 = room ∧ ¬ p.2 = sender)).map (fun p => p.2)

/-- Result of processing one inbound event. -/
structure StepResult where
  state : ServerState
  emits : List Emit
  threw : Bool
deriving DecidableEq, Repr

/-- The guard of the retry in `processMatchmaking` (server.js line 91), seen
from the positive side: the shifted candidate survives when its socket is
still live and it is not the caller itself
(`partnerSocket && partnerSocket.id !== socket.id`). -/
def liveCand (st : ServerState) (sid : String) (e : Entry) : Bool :=
  st.connected.contains e.id && !(e.id == sid)

/-- The recursion of `processMatchmaking` (server.js lines 83-141), unrolled
over the queue array it consumes: each iteration shifts the head; a head with
no live socket, or equal to the caller itself, is discarded and the recursion
continues; otherwise the match is committed with the remaining array as the
new queue.  When the array is exhausted the caller is pushed as the sole
entry.  `none` models a thrown exception (a profile lookup on `undefined`,
unreachable from the initial state). -/
def matchLoop (st : ServerState) (sid : String) (level : String) :
    List Entry → Option (ServerState × List Emit)
  | [] =>
    match getA st.users sid with
    | none => none
    | some u =>
      some ({ st with queues := setQueue st.queues level [⟨sid, u.name⟩] }, [])
  | e :: rest =>
    if liveCand st sid e then
      match getA st.users sid, getA st.users e.id with
      | some uA, some uB =>
        let roomId := newRoomId st.fresh
        some
          ({ st with
              queues := setQueue st.queues level rest,
              rooms := (roomId, ⟨roomId, [sid, e.id], level, st.now⟩) :: st.rooms,
              roomOf := setA (setA st.roomOf sid roomId) e.id roomId,
              members := (roomId, sid) :: (roomId, e.id) :: st.members,
              perf := { st.perf with totalMatches := st.perf.totalMatches + 1 },
              fresh := st.fresh + 1 },
           [⟨sid, .matchFound roomId uB.name uB.level "caller"⟩,
            ⟨e.id, .matchFound roomId uA.name uA.level "receiver"⟩])
      | _, _ => none
    else
      matchLoop st sid level rest

/-- `processMatchmaking(socket, level)`: `none` is the TypeError thrown on
`queue.length` when `level` is not one of the six tier keys. -/
def processMatchmaking (st : ServerState) (sid : String) (level : String) :
    Option (ServerState × List Emit) :=
  match queueOf st.queues level with
  | none => none
  | some q => matchLoop st sid level q

/-- The `register_user` handler (server.js lines 148-164).  Validation is
JavaScript truthiness of `payload.name` and `payload.level`; on failure a
`sys_error` is emitted to the sender only.  Otherwise the profile (name cut
to 20 units) is installed and matchmaking runs; if matchmaking throws, the
profile installation has already happened and the exception escapes the
handler. -/
def handleRegister (st : ServerState) (sid : String) (name : String) (level : String) :
    StepResult :=
  if name = "" ∨ level = "" then
    ⟨st, [⟨sid, .sysError "incomplete"⟩], false⟩
  else
    let st1 := { st with
      users := setA st.users sid ⟨sid, name.take 20, level, st.now⟩ }
    match processMatchmaking st1 sid level with
    | some (st2, es) => ⟨st2, es, false⟩
    | none => ⟨st1, [], true⟩

/-- The `signal` handler (server.js lines 167-178): relay to the stored room
if set, otherwise count a failed signal. -/
def handleSignal (st : ServerState) (sid : String) (data : String) : StepResult :=
  match getA st.roomOf sid with
  | some room =>
    ⟨st, (roomTargets st room sid).map (fun t => ⟨t, .signal data⟩), false⟩
  | none =>
    ⟨{ st with perf := { st.perf with failedSignals := st.perf.failedSignals + 1 } },
     [], false⟩

/-- The `message` handler (server.js lines 181-191): requires a registered
profile and a stored room; relays to the room (sender excluded) with the
sender's name and a server timestamp, and bumps `messagesProcessed`. -/
def handleMessage (st : ServerState) (sid : String) (text : String) : StepResult :=
  match getA st.users sid, getA st.roomOf sid with
  | some u, some room =>
    ⟨{ st with perf := { st.perf with messagesProcessed := st.perf.messagesProcessed + 1 } },
     (roomTargets st room sid).map (fun t => ⟨t, .message u.name text st.now⟩), false⟩
  | _, _ => ⟨st, [], false⟩

/-- The `typing_status` handler (server.js lines 194-198). -/
def handleTyping (st : ServerState) (sid : String) (status : Bool) : StepResult :=
  match getA st.roomOf sid with
  | some room =>
    ⟨st, (roomTargets st room sid).map (fun t => ⟨t, .partnerTyping status⟩), false⟩
  | none => ⟨st, [], false⟩

/-- The `disconnect` handler (server.js lines 201-219) followed by the
transport-level cleanup socket.io performs (the socket leaves the live set
and all rooms, and its object — with its `currentRoomId` field — is gone).
Note the handler deletes the room from `activeRooms` but never clears the
partner's `currentRoomId`. -/
def handleDisconnect (st : ServerState) (sid : String) : StepResult :=
  let inner : ServerState × List Emit :=
    match getA st.users sid with
    | none => (st, [])
    | some _ =>
      let st1 := { st with queues := removeId st.queues sid }
      match getA st.roomOf sid with
      | some room =>
        ({ st1 with
            rooms := eraseA st1.rooms room,
            users := eraseA st1.users sid },
         (roomTargets st room sid).map (fun t => ⟨t, .partnerDisconnected⟩))
      | none => ({ st1 with users := eraseA st1.users sid }, [])
  ⟨{ inner.1 with
      connected := inner.1.connected.filter (fun x => ¬ x = sid),
      members := inner.1.members.filter (fun p => ¬ p.2 = sid),
      roomOf := eraseA inner.1.roomOf sid }, inner.2, false⟩

/-- The periodic maintenance sweep (server.js lines 223-233): delete rooms
whose age exceeds one hour. -/
def handleSweep (st : ServerState) (now : Nat) : StepResult :=
  ⟨{ st with
      now := now,
      rooms := st.rooms.filter (fun p => ¬ p.2.startTime + 3600000 < now) }, [], false⟩

/-- Inbound events.  `leave` is included because the specification lists it;
server.js registers no listener for it, so socket.io drops it. -/
inductive Event where
  | connect (sid : String)
  | register (sid : String) (name : String) (level : String)
  | signal (sid : String) (data : String)
  | message (sid : String) (text : String)
  | typing (sid : String) (status : Bool)
  | leave (sid : String)
  | disconnect (sid : String)
  | sweep (now : Nat)
deriving DecidableEq, Repr

/-- One dispatcher step.  Events carrying a socket id are only delivered for
a live socket (the transport guarantees this); `leave` matches no listener
and does nothing. -/
def step (st : ServerState) (ev : Event) : StepResult :=
  match ev with
  | .connect sid =>
    ⟨{ st with connected := if st.connected.contains sid then st.connected else sid :: st.connected },
     [], false⟩
  | .register sid name level =>
    if st.connected.contains sid then handleRegister st sid name level else ⟨st, [], false⟩
  | .signal sid data =>
    if st.connected.contains sid then handleSignal st sid data else ⟨st, [], false⟩
  | .message sid text =>
    if st.connected.contains sid then handleMessage st sid text else ⟨st, [], false⟩
  | .typing sid status =>
    if st.connected.contains sid then handleTyping st sid status else ⟨st, [], false⟩
  | .leave _ => ⟨st, [], false⟩
  | .disconnect sid =>
    if st.connected.contains sid then handleDisconnect st sid else ⟨st, [], false⟩
  | .sweep now => handleSweep st now

/-- Run a whole inbound trace from the empty initial state. -/
def runTrace (tr : List Event) : ServerState :=
  tr.foldl (fun st ev => (step st ev).state) initialState

/-! ### Occupancy: how many queue slots / session seats an identity holds -/

/-- Number of occurrences of a string in a list. -/
def cnt : List String → String → Nat
  | [], _ => 0
  | a :: t, x => (if a = x then 1 else 0) + cnt t x

/-- The ids of a queue's entries. -/
def ids (l : List Entry) : List String := l.map Entry.id

/-- All ids waiting in any of the six tier queues (with multiplicity). -/
def queueIds (qs : Queues) : List String :=
  ids qs.qA1 ++ ids qs.qA2 ++ ids qs.qB1 ++ ids qs.qB2 ++ ids qs.qC1 ++ ids qs.qC2

/-- How many queue slots an identity occupies. -/
def qCount (qs : Queues) (x : String) : Nat := cnt (queueIds qs) x

/-- How many participant seats, over all rooms in the session table, an
identity occupies. -/
def rCount : List (String × RoomMeta) → String → Nat
  | [], _ => 0
  | (_, m) :: rs, x => cnt m.participants x + rCount rs x

/-- Total occupancy of an identity: queue slots plus session seats.  The
specification's exclusivity invariant says this is at most 1 for every live
identity. -/
def occupancy (st : ServerState) (x : String) : Nat :=
  qCount st.queues x + rCount st.rooms x

/-- The socket ids of the `register_user` events of a trace, in order. -/
def regSids : List Event → List String
  | [] => []
  | .register sid _ _ :: t => sid :: regSids t
  | _ :: t => regSids t

/-- Events handled purely by the relay layer. -/
def relayEvent : Event → Bool
  | .signal _ _ => true
  | .message _ _ => true
  | .typing _ _ => true
  | _ => false

/-! ### Helper lemmas -/

theorem cnt_append (l l' : List String) (x : String) :
    cnt (l ++ l') x = cnt l x + cnt l' x := by
  induction l with
  | nil => simp [cnt]
  | cons a t ih => simp [cnt, ih]; omega

theorem cnt_sublist_le {l l' : List String} (h : l.Sublist l') (x : String) :
    cnt l x ≤ cnt l' x := by
  induction h with
  | slnil => exact Nat.le_refl _
  | cons a _ ih => simp only [cnt]; omega
  | cons₂ a _ ih => simp only [cnt]; omega

theorem eraseA_cons {α : Type} (p : String × α) (t : List (String × α)) (k : String) :
    eraseA (p :: t) k = if p.1 = k then eraseA t k else p :: eraseA t k := by
  by_cases h : p.1 = k <;> simp [eraseA, List.filter_cons, h]

theorem getA_eraseA_self {α : Type} (l : List (String × α)) (k : String) :
    getA (eraseA l k) k = none := by
  induction l with
  | nil => simp [eraseA, getA]
  | cons p t ih =>
    rw [eraseA_cons]
    by_cases hp : p.1 = k
    · simpa [hp] using ih
    · simpa [hp, getA] using ih

theorem getA_eraseA_ne {α : Type} (l : List (String × α)) (k k' : String)
    (h : ¬ k = k') : getA (eraseA l k) k' = getA l k' := by
  induction l with
  | nil => simp [eraseA, getA]
  | cons p t ih =>
    rw [eraseA_cons]
    by_cases hp : p.1 = k
    · simpa [hp, getA, h] using ih
    · by_cases hk' : p.1 = k'
      · have h' : ¬ k' = k := fun hh => h hh.symm
        simp [hp, getA, hk', h']
      · simpa [hp, getA, hk'] using ih

theorem getA_setA_self {α : Type} (l : List (String × α)) (k : String) (v : α) :
    getA (setA l k v) k = some v := by
  simp [setA, getA]

theorem getA_setA_ne {α : Type} (l : List (String × α)) (k k' : String) (v : α)
    (h : ¬ k = k') : getA (setA l k v) k' = getA l k' := by
  simp only [setA, getA, if_neg h]
  exact getA_eraseA_ne l k k' h

theorem eraseA_sublist {α : Type} (l : List (String × α)) (k : String) :
    (eraseA l k).Sublist l := List.filter_sublist l

/-- A tier string accepted by `queueOf` is one of the six literals. -/
theorem tier_cases {qs : Queues} {lvl : String} {q : List Entry}
    (h : queueOf qs lvl = some q) :
    lvl = "A1" ∨ lvl = "A2" ∨ lvl = "B1" ∨ lvl = "B2" ∨ lvl = "C1" ∨ lvl = "C2" := by
  unfold queueOf at h
  split_ifs at h <;> simp_all

/-- Writing back the value just read leaves the queues unchanged. -/
theorem setQueue_self {qs : Queues} {lvl : String} {q : List Entry}
    (h : queueOf qs lvl = some q) : setQueue qs lvl q = qs := by
  rcases tier_cases h with rfl | rfl | rfl | rfl | rfl | rfl <;>
    (cases qs; simp_all [queueOf, setQueue])

/-- Writing one tier's queue does not change what another tier reads. -/
theorem queueOf_setQueue_ne (qs : Queues) (t t' : String) (v : List Entry)
    (h : ¬ t = t') : queueOf (setQueue qs t v) t' = queueOf qs t' := by
  unfold setQueue
  split_ifs with h1 h2 h3 h4 h5 h6 <;>
    first
      | rfl
      | (subst_vars
         unfold queueOf
         split_ifs <;> simp_all)

/-- Exchanging the value written into one (valid) tier queue, counted. -/
theorem qCount_setQueue_swap {qs : Queues} {lvl : String} {q0 : List Entry}
    (h : queueOf qs lvl = some q0) (v v' : List Entry) (x : String) :
    qCount (setQueue qs lvl v) x + cnt (ids v') x
      = qCount (setQueue qs lvl v') x + cnt (ids v) x := by
  rcases tier_cases h with rfl | rfl | rfl | rfl | rfl | rfl <;>
    (simp [qCount, queueIds, setQueue, cnt_append]; omega)

theorem qCount_removeId_le (qs : Queues) (sid x : String) :
    qCount (removeId qs sid) x ≤ qCount qs x := by
  have hf : ∀ l : List Entry,
      cnt (ids (l.filter (fun e => ¬ e.id = sid))) x ≤ cnt (ids l) x :=
    fun l => cnt_sublist_le ((List.filter_sublist l).map Entry.id) x
  have h1 := hf qs.qA1
  have h2 := hf qs.qA2
  have h3 := hf qs.qB1
  have h4 := hf qs.qB2
  have h5 := hf qs.qC1
  have h6 := hf qs.qC2
  simp only [qCount, queueIds, removeId, cnt_append]
  omega

theorem rCount_sublist_le {rs rs' : List (String × RoomMeta)}
    (h : rs.Sublist rs') (x : String) : rCount rs x ≤ rCount rs' x := by
  induction h with
  | slnil => exact Nat.le_refl _
  | cons a _ ih => simp only [rCount]; omega
  | cons₂ a _ ih => simp only [rCount]; omega

/-- The exclusivity invariant, relative to the set of identities that have
ever registered: every identity holds at most one queue slot or session
seat, and only registered identities hold any. -/
def Inv (st : ServerState) (regs : List String) : Prop :=
  (∀ x, occupancy st x ≤ 1) ∧ (∀ x, occupancy st x ≠ 0 → x ∈ regs)

theorem Inv.mono {st : ServerState} {regs regs' : List String}
    (h : Inv st regs) (hsub : ∀ x, x ∈ regs → x ∈ regs') : Inv st regs' :=
  ⟨h.1, fun x hx => hsub x (h.2 x hx)⟩

/-- Core step of the exclusivity proof: the match loop preserves the
invariant, measured against the queue array it has not consumed yet. -/
theorem matchLoop_inv {sid level : String} {regs : List String}
    {st : ServerState} {q0 : List Entry}
    (hq0 : queueOf st.queues level = some q0) (hsidregs : sid ∈ regs) :
    ∀ (q : List Entry) (st' : ServerState) (es : List Emit),
      matchLoop st sid level q = some (st', es) →
      (∀ x, qCount (setQueue st.queues level q) x + rCount st.rooms x ≤ 1) →
      (∀ x, qCount (setQueue st.queues level q) x + rCount st.rooms x ≠ 0 → x ∈ regs) →
      qCount (setQueue st.queues level q) sid + rCount st.rooms sid = 0 →
      Inv st' regs := by
  intro q
  induction q with
  | nil =>
    intro st' es hstep h1 h2 hs
    simp only [matchLoop] at hstep
    cases hu : getA st.users sid with
    | none => rw [hu] at hstep; exact absurd hstep (by simp)
    | some u =>
      rw [hu] at hstep
      simp only [Option.some.injEq, Prod.mk.injEq] at hstep
      obtain ⟨rfl, rfl⟩ := hstep
      have hswap : ∀ x, qCount (setQueue st.queues level [⟨sid, u.name⟩]) x
          = qCount (setQueue st.queues level []) x + (if sid = x then 1 else 0) := by
        intro x
        have h := qCount_setQueue_swap hq0 [⟨sid, u.name⟩] [] x
        simp [ids, cnt] at h
        omega
      constructor
      · intro x
        have h1x := h1 x
        have hsw := hswap x
        simp only [occupancy]
        by_cases hx : sid = x
        · subst hx; simp only [eq_self_iff_true, if_true] at hsw; omega
        · simp only [if_neg hx] at hsw; omega
      · intro x hx
        by_cases hxs : sid = x
        · exact hxs ▸ hsidregs
        · apply h2 x
          have hsw := hswap x
          simp only [if_neg hxs] at hsw
          simp only [occupancy] at hx
          omega
  | cons e rest ih =>
    intro st' es hstep h1 h2 hs
    simp only [matchLoop] at hstep
    by_cases hlive : liveCand st sid e = true
    · rw [if_pos hlive] at hstep
      have hcond : st.connected.contains e.id = true ∧ ¬ e.id = sid := by
        simpa [liveCand] using hlive
      cases hA : getA st.users sid with
      | none => rw [hA] at hstep; exact absurd hstep (by simp)
      | some uA =>
        cases hB : getA st.users e.id with
        | none => rw [hA, hB] at hstep; exact absurd hstep (by simp)
        | some uB =>
          rw [hA, hB] at hstep
          simp only [Option.some.injEq, Prod.mk.injEq] at hstep
          obtain ⟨rfl, rfl⟩ := hstep
          have key : ∀ x, qCount (setQueue st.queues level rest) x
              + (if e.id = x then 1 else 0)
              = qCount (setQueue st.queues level (e :: rest)) x := by
            intro x
            have hswap := qCount_setQueue_swap hq0 rest (e :: rest) x
            simp only [ids, List.map_cons, cnt] at hswap
            omega
          have hgoal : ∀ x, occupancy
              { st with
                  queues := setQueue st.queues level rest,
                  rooms := (newRoomId st.fresh,
                    ⟨newRoomId st.fresh, [sid, e.id], level, st.now⟩) :: st.rooms,
                  roomOf := setA (setA st.roomOf sid (newRoomId st.fresh)) e.id (newRoomId st.fresh),
                  members := (newRoomId st.fresh, sid) :: (newRoomId st.fresh, e.id) :: st.members,
                  perf := { st.perf with totalMatches := st.perf.totalMatches + 1 },
                  fresh := st.fresh + 1 } x
              = qCount (setQueue st.queues level rest) x
                + ((if sid = x then 1 else 0) + (if e.id = x then 1 else 0))
                + rCount st.rooms x := by
            intro x
            simp [occupancy, rCount, cnt]
            omega
          constructor
          · intro x
            rw [hgoal x]
            have h1x := h1 x
            have hkx := key x
            by_cases hx1 : sid = x
            · subst hx1
              have hke : ¬ e.id = sid := hcond.2
              simp only [eq_self_iff_true, if_true, if_neg hke] at *
              omega
            · by_cases hx2 : e.id = x
              · simp only [if_neg hx1, if_pos hx2] at *
                omega
              · simp only [if_neg hx1, if_neg hx2] at *
                omega
          · intro x hx
            rw [hgoal x] at hx
            have h1x := h1 x
            have hkx := key x
            by_cases hx1 : sid = x
            · exact hx1 ▸ hsidregs
            · apply h2 x
              by_cases hx2 : e.id = x
              · simp only [if_neg hx1, if_pos hx2] at *
                omega
              · simp only [if_neg hx1, if_neg hx2] at *
                omega
    · rw [if_neg hlive] at hstep
      have key : ∀ x, qCount (setQueue st.queues level rest) x
          ≤ qCount (setQueue st.queues level (e :: rest)) x := by
        intro x
        have hswap := qCount_setQueue_swap hq0 rest (e :: rest) x
        simp only [ids, List.map_cons, cnt] at hswap
        omega
      refine ih st' es hstep ?_ ?_ ?_
      · intro x
        have ha := h1 x
        have hb := key x
        omega
      · intro x hx
        apply h2 x
        have hb := key x
        omega
      · have hb := key sid
        omega

theorem inv_handleRegister {st : ServerState} {regs : List String}
    {sid name level : String} (hInv : Inv st regs) (hsid : ¬ sid ∈ regs) :
    Inv (handleRegister st sid name level).state (sid :: regs) := by
  have hmono : ∀ x, x ∈ regs → x ∈ sid :: regs := fun x hx => List.mem_cons_of_mem _ hx
  unfold handleRegister
  by_cases hval : name = "" ∨ level = ""
  · rw [if_pos hval]; exact hInv.mono hmono
  · rw [if_neg hval]
    simp only []
    unfold processMatchmaking
    cases hq : queueOf st.queues level with
    | none => simp only [hq]; exact hInv.mono hmono
    | some q0 =>
      simp only [hq]
      cases hml : matchLoop
          { st with users := setA st.users sid ⟨sid, name.take 20, level, st.now⟩ }
          sid level q0 with
      | none => simp only [hml]; exact hInv.mono hmono
      | some res =>
        obtain ⟨st2, es⟩ := res
        simp only [hml]
        have hzero : occupancy st sid = 0 := by
          by_contra h
          exact hsid (hInv.2 sid h)
        have hset : setQueue st.queues level q0 = st.queues := setQueue_self hq
        have hq1 : queueOf
            ({ st with users := setA st.users sid ⟨sid, name.take 20, level, st.now⟩ }
              : ServerState).queues level = some q0 := hq
        refine matchLoop_inv hq1 (List.mem_cons_self sid regs) q0 st2 es hml ?_ ?_ ?_
        · intro x
          rw [hset]
          have := hInv.1 x
          simpa [occupancy] using this
        · intro x hx
          rw [hset] at hx
          exact hmono x (hInv.2 x (by simpa [occupancy] using hx))
        · rw [hset]
          simpa [occupancy] using hzero

theorem inv_handleDisconnect {st : ServerState} {regs : List String} {sid : String}
    (hInv : Inv st regs) : Inv (handleDisconnect st sid).state regs := by
  unfold handleDisconnect
  cases hu : getA st.users sid with
  | none =>
    simp only [hu]
    exact ⟨fun x => hInv.1 x, fun x hx => hInv.2 x hx⟩
  | some u =>
    simp only [hu]
    cases hr : getA st.roomOf sid with
    | some room =>
      simp only [hr]
      have hle : ∀ x, occupancy
          { st with
              queues := removeId st.queues sid,
              rooms := eraseA st.rooms room,
              users := eraseA st.users sid } x ≤ occupancy st x := by
        intro x
        have h1 := qCount_removeId_le st.queues sid x
        have h2 := rCount_sublist_le (eraseA_sublist st.rooms room) x
        simp only [occupancy]
        omega
      constructor
      · intro x
        have := hInv.1 x
        have := hle x
        simp only [occupancy] at *
        omega
      · intro x hx
        apply hInv.2 x
        have := hle x
        simp only [occupancy] at *
        omega
    | none =>
      simp only [hr]
      have hle : ∀ x, occupancy
          { st with
              queues := removeId st.queues sid,
              users := eraseA st.users sid } x ≤ occupancy st x := by
        intro x
        have h1 := qCount_removeId_le st.queues sid x
        simp only [occupancy]
        omega
      constructor
      · intro x
        have := hInv.1 x
        have := hle x
        simp only [occupancy] at *
        omega
      · intro x hx
        apply hInv.2 x
        have := hle x
        simp only [occupancy] at *
        omega

theorem inv_handleSignal {st : ServerState} {regs : List String} {sid data : String}
    (hInv : Inv st regs) : Inv (handleSignal st sid data).state regs := by
  unfold handleSignal
  cases hr : getA st.roomOf sid with
  | some room => simpa using hInv
  | none => exact ⟨fun x => hInv.1 x, fun x hx => hInv.2 x hx⟩

theorem inv_handleMessage {st : ServerState} {regs : List String} {sid text : String}
    (hInv : Inv st regs) : Inv (handleMessage st sid text).state regs := by
  unfold handleMessage
  cases hu : getA st.users sid with
  | none => simpa using hInv
  | some u =>
    cases hr : getA st.roomOf sid with
    | some room => exact ⟨fun x => hInv.1 x, fun x hx => hInv.2 x hx⟩
    | none => simpa using hInv

theorem inv_handleTyping {st : ServerState} {regs : List String} {sid : String} {status : Bool}
    (hInv : Inv st regs) : Inv (handleTyping st sid status).state regs := by
  unfold handleTyping
  cases hr : getA st.roomOf sid with
  | some room => simpa using hInv
  | none => simpa using hInv

theorem inv_handleSweep {st : ServerState} {regs : List String} {now : Nat}
    (hInv : Inv st regs) : Inv (handleSweep st now).state regs := by
  have h2 : ∀ x, rCount (st.rooms.filter (fun p => ¬ p.2.startTime + 3600000 < now)) x
      ≤ rCount st.rooms x :=
    fun x => rCount_sublist_le (List.filter_sublist _) x
  have hle : ∀ x, occupancy (handleSweep st now).state x ≤ occupancy st x := by
    intro x
    simp only [handleSweep, occupancy]
    exact Nat.add_le_add_left (h2 x) _
  exact ⟨fun x => Nat.le_trans (hle x) (hInv.1 x),
         fun x hx => hInv.2 x (by have := hle x; omega)⟩

/-- The register ids contributed by a single event. -/
def evRegs : Event → List String
  | .register sid _ _ => [sid]
  | _ => []

theorem regSids_cons (ev : Event) (t : List Event) :
    regSids (ev :: t) = evRegs ev ++ regSids t := by
  cases ev <;> rfl

theorem inv_step {st : ServerState} {regs : List String} {ev : Event}
    (hInv : Inv st regs)
    (hreg : ∀ sid n l, ev = .register sid n l → ¬ sid ∈ regs) :
    Inv (step st ev).state (evRegs ev ++ regs) := by
  cases ev with
  | connect sid =>
    exact ⟨fun x => hInv.1 x, fun x hx => hInv.2 x hx⟩
  | register sid n l =>
    simp only [step, evRegs, List.cons_append, List.nil_append]
    by_cases hc : st.connected.contains sid = true
    · rw [if_pos hc]
      exact inv_handleRegister hInv (hreg sid n l rfl)
    · rw [if_neg hc]
      exact hInv.mono (fun x hx => List.mem_cons_of_mem _ hx)
  | signal sid data =>
    simp only [step, evRegs, List.nil_append]
    by_cases hc : st.connected.contains sid = true
    · rw [if_pos hc]; exact inv_handleSignal hInv
    · rw [if_neg hc]; exact hInv
  | message sid text =>
    simp only [step, evRegs, List.nil_append]
    by_cases hc : st.connected.contains sid = true
    · rw [if_pos hc]; exact inv_handleMessage hInv
    · rw [if_neg hc]; exact hInv
  | typing sid status =>
    simp only [step, evRegs, List.nil_append]
    by_cases hc : st.connected.contains sid = true
    · rw [if_pos hc]; exact inv_handleTyping hInv
    · rw [if_neg hc]; exact hInv
  | leave sid => exact hInv
  | disconnect sid =>
    simp only [step, evRegs, List.nil_append]
    by_cases hc : st.connected.contains sid = true
    · rw [if_pos hc]; exact inv_handleDisconnect hInv
    · rw [if_neg hc]; exact hInv
  | sweep now =>
    simp only [step, evRegs, List.nil_append]
    exact inv_handleSweep hInv

theorem run_inv : ∀ (tr : List Event) (st : ServerState) (regs : List String),
    Inv st regs → (∀ s, s ∈ regSids tr → ¬ s ∈ regs) → (regSids tr).Nodup →
    Inv (tr.foldl (fun s e => (step s e).state) st) (regSids tr ++ regs) := by
  intro tr
  induction tr with
  | nil =>
    intro st regs hInv _ _
    simpa [regSids] using hInv
  | cons ev t ih =>
    intro st regs hInv hdis hnd
    rw [regSids_cons] at hdis hnd
    have hnd' : (regSids t).Nodup := (List.nodup_append.mp hnd).2.1
    have hreg : ∀ sid n l, ev = .register sid n l → ¬ sid ∈ regs := by
      intro sid n l hev
      apply hdis sid
      rw [hev]
      simp [evRegs]
    have hstep := inv_step hInv hreg
    have hdis' : ∀ s, s ∈ regSids t → ¬ s ∈ evRegs ev ++ regs := by
      intro s hs
      rw [List.mem_append]
      rintro (hev | hregs)
      · exact (List.nodup_append.mp hnd).2.2 hev hs
      · exact hdis s (List.mem_append.mpr (Or.inr hs)) hregs
    have := ih (step st ev).state (evRegs ev ++ regs) hstep hdis' hnd'
    rw [List.foldl_cons]
    refine this.mono ?_
    intro x hx
    rw [List.mem_append, List.mem_append] at hx
    rw [List.mem_append, regSids_cons, List.mem_append]
    tauto

/-! ### Behavioural characterizations of the match loop -/

/-- Full characterization of one `processMatchmaking` run over a given
queue array: dead candidates (no live socket, or the caller itself) are
exactly the dropped prefix; an emptied queue re-enqueues the caller alone
and emits nothing; otherwise the first surviving candidate is committed. -/
theorem matchLoop_spec (st : ServerState) (sid level : String) (u : UserProfile)
    (hu : getA st.users sid = some u) :
    ∀ q : List Entry,
      (q.dropWhile (fun e => !liveCand st sid e) = [] →
        matchLoop st sid level q
          = some ({ st with queues := setQueue st.queues level [⟨sid, u.name⟩] }, [])) ∧
      (∀ e rest, q.dropWhile (fun e => !liveCand st sid e) = e :: rest →
        ∀ uB, getA st.users e.id = some uB →
        matchLoop st sid level q
          = some ({ st with
              queues := setQueue st.queues level rest,
              rooms := (newRoomId st.fresh,
                ⟨newRoomId st.fresh, [sid, e.id], level, st.now⟩) :: st.rooms,
              roomOf := setA (setA st.roomOf sid (newRoomId st.fresh)) e.id (newRoomId st.fresh),
              members := (newRoomId st.fresh, sid) :: (newRoomId st.fresh, e.id) :: st.members,
              perf := { st.perf with totalMatches := st.perf.totalMatches + 1 },
              fresh := st.fresh + 1 },
            [⟨sid, .matchFound (newRoomId st.fresh) uB.name uB.level "caller"⟩,
             ⟨e.id, .matchFound (newRoomId st.fresh) u.name u.level "receiver"⟩])) := by
  intro q
  induction q with
  | nil =>
    constructor
    · intro _
      simp [matchLoop, hu]
    · intro e rest h _ _
      simp [List.dropWhile] at h
  | cons e0 t ih =>
    constructor
    · intro hdrop
      rw [List.dropWhile_cons] at hdrop
      by_cases hl : liveCand st sid e0 = true
      · simp [hl] at hdrop
      · rw [if_pos (by simp [hl])] at hdrop
        simp only [matchLoop, if_neg (by simp [hl] : ¬ (liveCand st sid e0 = true))]
        exact ih.1 hdrop
    · intro e rest hdrop uB huB
      rw [List.dropWhile_cons] at hdrop
      by_cases hl : liveCand st sid e0 = true
      · rw [if_neg (by simp [hl])] at hdrop
        obtain ⟨rfl, rfl⟩ : e0 = e ∧ t = rest := by
          injection hdrop with h1 h2
          exact ⟨h1, h2⟩
        simp only [matchLoop, if_pos hl, hu, huB]
      · rw [if_pos (by simp [hl])] at hdrop
        simp only [matchLoop, if_neg (by simp [hl] : ¬ (liveCand st sid e0 = true))]
        exact ih.2 e rest hdrop uB huB

/-- Whenever the match loop produces any emissions, they are exactly one
`match_found` with role caller to the newly arriving socket and one with
role receiver to a partner that came out of the queue, both carrying the
same room id. -/
theorem matchLoop_emits (st : ServerState) (sid level : String) :
    ∀ (q : List Entry) (st' : ServerState) (es : List Emit),
      matchLoop st sid level q = some (st', es) → es ≠ [] →
      ∃ rid pid pn pl mn ml, ¬ pid = sid ∧ pid ∈ ids q ∧
        es = [⟨sid, OutEvent.matchFound rid pn pl "caller"⟩,
              ⟨pid, OutEvent.matchFound rid mn ml "receiver"⟩] := by
  intro q
  induction q with
  | nil =>
    intro st' es hstep hne
    simp only [matchLoop] at hstep
    cases hu : getA st.users sid with
    | none => rw [hu] at hstep; exact absurd hstep (by simp)
    | some u =>
      rw [hu] at hstep
      simp only [Option.some.injEq, Prod.mk.injEq] at hstep
      exact absurd hstep.2.symm hne
  | cons e t ih =>
    intro st' es hstep hne
    simp only [matchLoop] at hstep
    by_cases hl : liveCand st sid e = true
    · rw [if_pos hl] at hstep
      have hcond : st.connected.contains e.id = true ∧ ¬ e.id = sid := by
        simpa [liveCand] using hl
      cases hA : getA st.users sid with
      | none => rw [hA] at hstep; exact absurd hstep (by simp)
      | some uA =>
        cases hB : getA st.users e.id with
        | none => rw [hA, hB] at hstep; exact absurd hstep (by simp)
        | some uB =>
          rw [hA, hB] at hstep
          simp only [Option.some.injEq, Prod.mk.injEq] at hstep
          refine ⟨newRoomId st.fresh, e.id, uB.name, uB.level, uA.name, uA.level,
            hcond.2, ?_, hstep.2.symm⟩
          simp [ids]
    · rw [if_neg hl] at hstep
      obtain ⟨rid, pid, pn, pl, mn, ml, hpid, hmem, hes⟩ := ih st' es hstep hne
      exact ⟨rid, pid, pn, pl, mn, ml, hpid, by simp [ids] at hmem ⊢; exact Or.inr hmem, hes⟩

/-- The match loop never touches the user registry and only ever rewrites
the queue of the tier it was called on. -/
theorem matchLoop_shape (st : ServerState) (sid level : String) :
    ∀ (q : List Entry) (st' : ServerState) (es : List Emit),
      matchLoop st sid level q = some (st', es) →
      st'.users = st.users ∧ ∃ v, st'.queues = setQueue st.queues level v := by
  intro q
  induction q with
  | nil =>
    intro st' es hstep
    simp only [matchLoop] at hstep
    cases hu : getA st.users sid with
    | none => rw [hu] at hstep; exact absurd hstep (by simp)
    | some u =>
      rw [hu] at hstep
      simp only [Option.some.injEq, Prod.mk.injEq] at hstep
      obtain ⟨rfl, -⟩ := hstep
      exact ⟨rfl, ⟨_, rfl⟩⟩
  | cons e t ih =>
    intro st' es hstep
    simp only [matchLoop] at hstep
    by_cases hl : liveCand st sid e = true
    · rw [if_pos hl] at hstep
      cases hA : getA st.users sid with
      | none => rw [hA] at hstep; exact absurd hstep (by simp)
      | some uA =>
        cases hB : getA st.users e.id with
        | none => rw [hA, hB] at hstep; exact absurd hstep (by simp)
        | some uB =>
          rw [hA, hB] at hstep
          simp only [Option.some.injEq, Prod.mk.injEq] at hstep
          obtain ⟨rfl, -⟩ := hstep
          exact ⟨rfl, ⟨_, rfl⟩⟩
    · rw [if_neg hl] at hstep
      exact ih st' es hstep

/-! ### Concrete scenarios used as inputs below -/

/-- X and Y connect and register into tier A1; they end up matched in room
`lp_room_0`. -/
def pairTrace : List Event :=
  [.connect "X", .connect "Y", .register "X" "x" "A1", .register "Y" "y" "A1"]

/-- One identity registers twice, into two different tiers in turn. -/
def doubleRegTrace : List Event :=
  [.connect "X", .register "X" "n" "A1", .register "X" "n" "B1"]

/-- After the matched pair, X re-registers into A1 (while still holding its
room reference) and a third socket Z arrives. -/
def requeueTrace : List Event :=
  pairTrace ++ [.connect "Z", .register "X" "x" "A1"]

/-! ### Claims -/

/-- C1, counterexample: the exclusivity invariant as claimed is violated by
the code.  After the trace in which the live connection X registers into
tier A1 and then again into tier B1, X holds two queue slots at once (one
in the A1 queue and one in the B1 queue): re-registration performs no
teardown. -/
theorem c1_counterexample :
    "X" ∈ (runTrace doubleRegTrace).connected ∧
    occupancy (runTrace doubleRegTrace) "X" = 2 := by
  constructor <;> decide

/-- C1 (amended): for every sequence of inbound events in which no identity
registers more than once, at every point each connection identity occupies
at most one queue slot or session seat in total — never two queues, never
two sessions, never a queue and a session at once.  (The restriction to
single registration is forced: the previous theorem shows a re-registering
identity ends up in two tier queues.) -/
theorem c1_exclusivity_without_reregistration (tr : List Event)
    (hnd : (regSids tr).Nodup) (x : String) :
    occupancy (runTrace tr) x ≤ 1 := by
  have hInit : Inv initialState [] := by
    constructor
    · intro y
      simp [occupancy, initialState, qCount, queueIds, ids, cnt, rCount]
    · intro y hy
      exfalso
      apply hy
      simp [occupancy, initialState, qCount, queueIds, ids, cnt, rCount]
  have h := run_inv tr initialState [] hInit (by simp) hnd
  exact h.1 x

/-- Witness for C1: the amended theorem applied to the concrete matched-pair
trace. -/
theorem c1_witness :
    (regSids pairTrace).Nodup ∧ occupancy (runTrace pairTrace) "X" ≤ 1 :=
  ⟨by decide, c1_exclusivity_without_reregistration pairTrace (by decide) "X"⟩

/-- C2, counterexample: the claim says a popped candidate that already holds
a session reference is discarded as dead.  In the code it is not: after
`requeueTrace`, X sits at the head of the A1 queue while its stored room
reference still points at `lp_room_0`; when Z then registers, the code
matches Z with X anyway (a fresh room `lp_room_1` whose participants are Z
and X), instead of discarding X and leaving Z waiting. -/
theorem c2_counterexample :
    getA (runTrace requeueTrace).roomOf "X" = some "lp_room_0" ∧
    (runTrace requeueTrace).queues.qA1 = [⟨"X", "x"⟩] ∧
    getA ((step (runTrace requeueTrace) (.register "Z" "z" "A1")).state).rooms "lp_room_1"
      = some ⟨"lp_room_1", ["Z", "X"], "A1", 0⟩ := by
  refine ⟨by decide, by decide, by decide⟩

/-- C2 (amended): `processMatchmaking(identity, tier)` repeatedly pops the
head of the tier's queue, discarding without re-insertion every candidate
that has no live socket or equals the identity itself — a candidate that
merely holds a session reference is NOT discarded; if the whole queue is
consumed without a surviving candidate, the identity is appended as the sole
tail entry of that tier's queue and nothing is emitted (the Waiting
outcome), and otherwise the first surviving candidate is matched. -/
theorem c2_skip_loop_behaviour (st : ServerState) (sid level : String)
    (q : List Entry) (u : UserProfile)
    (hq : queueOf st.queues level = some q)
    (hu : getA st.users sid = some u) :
    (q.dropWhile (fun e => !liveCand st sid e) = [] →
      processMatchmaking st sid level
        = some ({ st with queues := setQueue st.queues level [⟨sid, u.name⟩] }, [])) ∧
    (∀ e rest, q.dropWhile (fun e => !liveCand st sid e) = e :: rest →
      ∀ uB, getA st.users e.id = some uB →
      processMatchmaking st sid level
        = some ({ st with
            queues := setQueue st.queues level rest,
            rooms := (newRoomId st.fresh,
              ⟨newRoomId st.fresh, [sid, e.id], level, st.now⟩) :: st.rooms,
            roomOf := setA (setA st.roomOf sid (newRoomId st.fresh)) e.id (newRoomId st.fresh),
            members := (newRoomId st.fresh, sid) :: (newRoomId st.fresh, e.id) :: st.members,
            perf := { st.perf with totalMatches := st.perf.totalMatches + 1 },
            fresh := st.fresh + 1 },
          [⟨sid, .matchFound (newRoomId st.fresh) uB.name uB.level "caller"⟩,
           ⟨e.id, .matchFound (newRoomId st.fresh) u.name u.level "receiver"⟩])) := by
  unfold processMatchmaking
  rw [hq]
  exact matchLoop_spec st sid level u hu q

/-- A concrete state for exercising the skip loop: the A1 queue holds a
candidate with no live socket, then the caller X itself, and X is a
registered user. -/
def stSkip : ServerState :=
  { connected := ["X"],
    users := [("X", ⟨"X", "x", "A1", 0⟩), ("D", ⟨"D", "d", "A1", 0⟩)],
    rooms := [],
    queues := ⟨[⟨"D", "d"⟩, ⟨"X", "x"⟩], [], [], [], [], []⟩,
    roomOf := [],
    members := [],
    perf := ⟨0, 0, 0⟩,
    fresh := 0,
    now := 0 }

/-- Witness for C2: on `stSkip` the dead candidate D (socket gone) and the
self entry X are both discarded, the queue empties, and X is re-enqueued
alone with no emission. -/
theorem c2_witness :
    processMatchmaking stSkip "X" "A1"
      = some ({ stSkip with queues := setQueue stSkip.queues "A1" [⟨"X", "x"⟩] }, []) :=
  (c2_skip_loop_behaviour stSkip "X" "A1" [⟨"D", "d"⟩, ⟨"X", "x"⟩]
    ⟨"X", "x", "A1", 0⟩ rfl rfl).1 (by decide)

/-- C3 (confirmed): whenever a `processMatchmaking` run emits anything, it
emits exactly a `match_found` with role "caller" to the newly arriving
socket and a `match_found` with role "receiver" to a partner taken from the
tier's queue, and both carry the same room id. -/
theorem c3_match_roles (st st' : ServerState) (sid level : String)
    (q : List Entry) (es : List Emit)
    (hq : queueOf st.queues level = some q)
    (hrun : processMatchmaking st sid level = some (st', es))
    (hmatched : es ≠ []) :
    ∃ rid pid pn pl mn ml, ¬ pid = sid ∧ pid ∈ ids q ∧
      es = [⟨sid, OutEvent.matchFound rid pn pl "caller"⟩,
            ⟨pid, OutEvent.matchFound rid mn ml "receiver"⟩] := by
  unfold processMatchmaking at hrun
  rw [hq] at hrun
  exact matchLoop_emits st sid level q st' es hrun hmatched

/-- A small literal state: X waits alone in the A1 queue, Y is live and
registered and about to run matchmaking. -/
def stPair : ServerState :=
  { connected := ["Y", "X"],
    users := [("Y", ⟨"Y", "y", "A1", 0⟩), ("X", ⟨"X", "x", "A1", 0⟩)],
    rooms := [],
    queues := ⟨[⟨"X", "x"⟩], [], [], [], [], []⟩,
    roomOf := [],
    members := [],
    perf := ⟨0, 0, 0⟩,
    fresh := 0,
    now := 0 }

/-- Witness for C3: the newcomer Y gets role caller, the queued X gets role
receiver, and both events carry the room id `lp_room_0`. -/
theorem c3_witness :
    ∃ rid pid pn pl mn ml, ¬ pid = "Y" ∧ pid ∈ ids [(⟨"X", "x"⟩ : Entry)] ∧
      ([⟨"Y", OutEvent.matchFound "lp_room_0" "x" "A1" "caller"⟩,
        ⟨"X", OutEvent.matchFound "lp_room_0" "y" "A1" "receiver"⟩] : List Emit)
        = [⟨"Y", OutEvent.matchFound rid pn pl "caller"⟩,
           ⟨pid, OutEvent.matchFound rid mn ml "receiver"⟩] :=
  c3_match_roles stPair _ "Y" "A1" [⟨"X", "x"⟩] _ rfl rfl (by decide)

/-- C4, counterexample: the claim says the surviving partner's session
reference is cleared so that the partner is left idle.  It is not: after the
matched pair X/Y, X's disconnect leaves Y's stored room reference still
pointing at the removed room `lp_room_0`. -/
theorem c4_counterexample :
    getA ((step (runTrace pairTrace) (.disconnect "X")).state).roomOf "Y"
      = some "lp_room_0" ∧
    getA ((step (runTrace pairTrace) (.disconnect "X")).state).rooms "lp_room_0"
      = none := by
  exact ⟨by decide, by decide⟩

/-- C4 (amended): when a matched participant disconnects, its partner
receives exactly one `partner_disconnected` notification and the session is
removed from the session table, but the partner's own stored room reference
is NOT cleared — the partner is left holding a stale reference to the
removed room. -/
theorem c4_disconnect_behaviour (st : ServerState) (sid pid room : String)
    (u : UserProfile)
    (hconn : st.connected.contains sid = true)
    (hu : getA st.users sid = some u)
    (hroom : getA st.roomOf sid = some room)
    (htar : roomTargets st room sid = [pid])
    (hpid : ¬ sid = pid) :
    (step st (.disconnect sid)).emits = [⟨pid, .partnerDisconnected⟩] ∧
    getA (step st (.disconnect sid)).state.rooms room = none ∧
    getA (step st (.disconnect sid)).state.roomOf pid = getA st.roomOf pid := by
  simp only [step, if_pos hconn]
  unfold handleDisconnect
  simp only [hu, hroom, htar]
  refine ⟨rfl, ?_, ?_⟩
  · exact getA_eraseA_self st.rooms room
  · exact getA_eraseA_ne st.roomOf sid pid hpid

/-- Witness for C4: the concrete matched pair, X disconnecting. -/
theorem c4_witness :
    (step (runTrace pairTrace) (.disconnect "X")).emits
      = [⟨"Y", OutEvent.partnerDisconnected⟩] ∧
    getA (step (runTrace pairTrace) (.disconnect "X")).state.rooms "lp_room_0" = none ∧
    getA (step (runTrace pairTrace) (.disconnect "X")).state.roomOf "Y"
      = getA (runTrace pairTrace).roomOf "Y" :=
  c4_disconnect_behaviour (runTrace pairTrace) "X" "Y" "lp_room_0"
    ⟨"X", "x", "A1", 0⟩ (by decide) (by decide) (by decide) (by decide) (by decide)

/-- C5, counterexample: the claim says tier strings are case-normalized, so
"a1" and "A1" land in the same queue, and invalid registrations surface an
error.  In the code, registering with tier "a1" passes the truthiness check,
installs the profile, then throws (undefined queue): no error event is
emitted and nothing enters the A1 queue — while "A1" does enqueue.  Also a
whitespace-only name is accepted rather than rejected. -/
theorem c5_counterexample :
    (step (runTrace [.connect "X"]) (.register "X" "x" "a1")).state.queues.qA1 = [] ∧
    (step (runTrace [.connect "X"]) (.register "X" "x" "a1")).emits = [] ∧
    (step (runTrace [.connect "X"]) (.register "X" "x" "a1")).threw = true ∧
    (step (runTrace [.connect "X"]) (.register "X" "x" "A1")).state.queues.qA1
      = [⟨"X", "x"⟩] ∧
    (step (runTrace [.connect "X"]) (.register "X" " " "A1")).emits = [] := by
  refine ⟨by decide, by decide, by decide, by decide, by decide⟩

/-- C5 (amended): registration validation is JavaScript truthiness only: it
is rejected (with a `sys_error` to the registering socket alone) iff the
name or the tier is the empty string; no trimming and no case normalization
happen, and a non-empty tier that is not one of the six exact strings
"A1".."C2" passes validation, installs the profile, and then makes the
handler throw — emitting nothing and enqueuing nowhere. -/
theorem c5_registration_validation (st : ServerState) (sid name level : String)
    (hconn : st.connected.contains sid = true) :
    ((name = "" ∨ level = "") →
      step st (.register sid name level)
        = ⟨st, [⟨sid, .sysError "incomplete"⟩], false⟩) ∧
    (¬ name = "" → ¬ level = "" → queueOf st.queues level = none →
      step st (.register sid name level)
        = ⟨{ st with users := setA st.users sid ⟨sid, name.take 20, level, st.now⟩ },
           [], true⟩) := by
  constructor
  · intro hval
    simp only [step, if_pos hconn, handleRegister, if_pos hval]
  · intro hn hl hq
    simp only [step, if_pos hconn, handleRegister,
      if_neg (show ¬ (name = "" ∨ level = "") by tauto)]
    unfold processMatchmaking
    rw [show queueOf
        ({ st with users := setA st.users sid ⟨sid, name.take 20, level, st.now⟩ }
          : ServerState).queues level = none from hq]

/-- Witness for C5: both conjuncts at concrete inputs — empty name rejected
with an error; tier "a1" throwing after profile installation. -/
theorem c5_witness :
    step (runTrace [.connect "X"]) (.register "X" "" "A1")
      = ⟨runTrace [.connect "X"], [⟨"X", .sysError "incomplete"⟩], false⟩ ∧
    step (runTrace [.connect "X"]) (.register "X" "x" "a1")
      = ⟨{ runTrace [.connect "X"] with
            users := setA (runTrace [.connect "X"]).users "X" ⟨"X", "x", "a1", 0⟩ },
         [], true⟩ :=
  ⟨(c5_registration_validation (runTrace [.connect "X"]) "X" "" "A1" (by decide)).1
      (Or.inl rfl),
   (c5_registration_validation (runTrace [.connect "X"]) "X" "x" "a1" (by decide)).2
      (by decide) (by decide) (by decide)⟩

/-- C6, counterexample: the claim says re-registration removes the prior
queue entry before the new one is made.  It does not: after registering into
A1 and then re-registering into B1, the identity X holds entries in both
queues simultaneously. -/
theorem c6_counterexample :
    (runTrace doubleRegTrace).queues.qA1 = [⟨"X", "n"⟩] ∧
    (runTrace doubleRegTrace).queues.qB1 = [⟨"X", "n"⟩] := by
  exact ⟨by decide, by decide⟩

/-- C6 (amended): re-registration performs no teardown at all: registering
an already-registered identity into a different (valid) tier installs the
new profile but leaves the old tier's queue — including the identity's stale
entry — completely unchanged. -/
theorem c6_no_teardown_on_reregistration (st : ServerState)
    (sid n t1 t2 : String) (q1 : List Entry)
    (hconn : st.connected.contains sid = true)
    (hn : ¬ n = "") (ht2 : ¬ t2 = "") (h12 : ¬ t2 = t1)
    (hq1 : queueOf st.queues t1 = some q1) :
    queueOf (step st (.register sid n t2)).state.queues t1 = some q1 ∧
    getA (step st (.register sid n t2)).state.users sid
      = some ⟨sid, n.take 20, t2, st.now⟩ := by
  simp only [step, if_pos hconn]
  unfold handleRegister
  rw [if_neg (show ¬ (n = "" ∨ t2 = "") by tauto)]
  cases hpm : processMatchmaking
      { st with users := setA st.users sid ⟨sid, n.take 20, t2, st.now⟩ } sid t2 with
  | none =>
    simp only [hpm]
    exact ⟨hq1, getA_setA_self st.users sid _⟩
  | some res =>
    obtain ⟨st2, es⟩ := res
    simp only [hpm]
    unfold processMatchmaking at hpm
    cases hq2 : queueOf st.queues t2 with
    | none =>
      rw [show queueOf
          ({ st with users := setA st.users sid ⟨sid, n.take 20, t2, st.now⟩ }
            : ServerState).queues t2 = none from hq2] at hpm
      exact absurd hpm (by simp)
    | some q2 =>
      rw [show queueOf
          ({ st with users := setA st.users sid ⟨sid, n.take 20, t2, st.now⟩ }
            : ServerState).queues t2 = some q2 from hq2] at hpm
      obtain ⟨husers, v, hqueues⟩ := matchLoop_shape _ sid t2 q2 st2 es hpm
      constructor
      · rw [hqueues, queueOf_setQueue_ne _ t2 t1 v h12]
        exact hq1
      · rw [husers]
        exact getA_setA_self st.users sid _

/-- Witness for C6: X, queued in A1, re-registers into B1; the A1 entry
survives and the profile now says tier B1. -/
theorem c6_witness :
    queueOf (step (runTrace [.connect "X", .register "X" "n" "A1"])
        (.register "X" "n" "B1")).state.queues "A1" = some [⟨"X", "n"⟩] ∧
    getA (step (runTrace [.connect "X", .register "X" "n" "A1"])
        (.register "X" "n" "B1")).state.users "X" = some ⟨"X", "n", "B1", 0⟩ :=
  c6_no_teardown_on_reregistration (runTrace [.connect "X", .register "X" "n" "A1"])
    "X" "n" "A1" "B1" [⟨"X", "n"⟩] (by decide) (by decide) (by decide) (by decide) (by decide)

/-- C7, counterexample: the claim says chat text is trimmed, empty-after-trim
text is dropped, and the message is delivered to both participants including
an echo to the sender.  In the code, a whitespace-only message from matched
X is delivered verbatim to Y alone: not dropped, not trimmed, no echo. -/
theorem c7_counterexample :
    (step (runTrace pairTrace) (.message "X" "   ")).emits
      = [⟨"Y", OutEvent.message "x" "   " 0⟩] := by
  decide

/-- C7 (amended): a chat message from a registered sender whose socket has a
room reference is forwarded verbatim — no trimming, no length bound, no
empty-drop — wrapped with the sender's name and a server timestamp, and is
delivered only to the other members of the room: the sender receives no
echo. -/
theorem c7_message_relay (st : ServerState) (sid text room : String)
    (u : UserProfile)
    (hconn : st.connected.contains sid = true)
    (hu : getA st.users sid = some u)
    (hroom : getA st.roomOf sid = some room) :
    step st (.message sid text)
      = ⟨{ st with perf :=
            { st.perf with messagesProcessed := st.perf.messagesProcessed + 1 } },
         (roomTargets st room sid).map (fun t => ⟨t, .message u.name text st.now⟩),
         false⟩ ∧
    ∀ em ∈ (step st (.message sid text)).emits, ¬ em.target = sid := by
  have h1 : step st (.message sid text)
      = ⟨{ st with perf :=
            { st.perf with messagesProcessed := st.perf.messagesProcessed + 1 } },
         (roomTargets st room sid).map (fun t => ⟨t, .message u.name text st.now⟩),
         false⟩ := by
    simp only [step, if_pos hconn, handleMessage, hu, hroom]
  refine ⟨h1, ?_⟩
  rw [h1]
  intro em hem
  simp only [List.mem_map] at hem
  obtain ⟨t, ht, rfl⟩ := hem
  simp only [roomTargets, List.mem_map, List.mem_filter] at ht
  obtain ⟨p, ⟨-, hp⟩, rfl⟩ := ht
  simpa using (of_decide_eq_true hp).2

/-- Witness for C7: the concrete matched pair with an untrimmed text. -/
theorem c7_witness :
    step (runTrace pairTrace) (.message "X" "  hi  ")
      = ⟨{ runTrace pairTrace with perf :=
            { (runTrace pairTrace).perf with
                messagesProcessed := (runTrace pairTrace).perf.messagesProcessed + 1 } },
         (roomTargets (runTrace pairTrace) "lp_room_0" "X").map
           (fun t => ⟨t, .message "x" "  hi  " (runTrace pairTrace).now⟩),
         false⟩ :=
  (c7_message_relay (runTrace pairTrace) "X" "  hi  " "lp_room_0"
    ⟨"X", "x", "A1", 0⟩ (by decide) (by decide) (by decide)).1

/-- C8, counterexample: the claim says an out-of-session event mutates no
state.  An out-of-session `signal` increments the `failedSignals` counter:
the state is mutated. -/
theorem c8_counterexample :
    (runTrace [.connect "X"]).perf.failedSignals = 0 ∧
    (step (runTrace [.connect "X"]) (.signal "X" "d")).state.perf.failedSignals = 1 := by
  exact ⟨by decide, by decide⟩

/-- C8 (amended): a message, signal or typing event from a socket whose room
reference is unset emits nothing and is not an error; message and typing
leave the state entirely unchanged, while signal additionally increments the
`failedSignals` metric — the only mutation. -/
theorem c8_out_of_session_drop (st : ServerState) (sid data text : String)
    (status : Bool)
    (hconn : st.connected.contains sid = true)
    (hroom : getA st.roomOf sid = none) :
    (step st (.signal sid data)).emits = [] ∧
    (step st (.signal sid data)).state
      = { st with perf := { st.perf with failedSignals := st.perf.failedSignals + 1 } } ∧
    step st (.message sid text) = ⟨st, [], false⟩ ∧
    step st (.typing sid status) = ⟨st, [], false⟩ := by
  refine ⟨?_, ?_, ?_, ?_⟩
  · simp only [step, if_pos hconn, handleSignal, hroom]
  · simp only [step, if_pos hconn, handleSignal, hroom]
  · cases hu : getA st.users sid <;>
      simp only [step, if_pos hconn, handleMessage, hu, hroom]
  · simp only [step, if_pos hconn, handleTyping, hroom]

/-- Witness for C8: a connected but never-matched socket. -/
theorem c8_witness :
    (step (runTrace [.connect "X"]) (.signal "X" "d")).emits = [] ∧
    (step (runTrace [.connect "X"]) (.signal "X" "d")).state
      = { runTrace [.connect "X"] with perf :=
          { (runTrace [.connect "X"]).perf with
              failedSignals := (runTrace [.connect "X"]).perf.failedSignals + 1 } } ∧
    step (runTrace [.connect "X"]) (.message "X" "hello") = ⟨runTrace [.connect "X"], [], false⟩ ∧
    step (runTrace [.connect "X"]) (.typing "X" true) = ⟨runTrace [.connect "X"], [], false⟩ :=
  c8_out_of_session_drop (runTrace [.connect "X"]) "X" "d" "hello" true
    (by decide) (by decide)

/-- C9, counterexample: the claim says a leave event performs the full
teardown.  The server registers no handler for leave, so after X registers
into A1 a leave event changes nothing: the profile and the queue entry both
survive and nothing is emitted. -/
theorem c9_counterexample :
    step (runTrace [.connect "X", .register "X" "n" "A1"]) (.leave "X")
      = ⟨runTrace [.connect "X", .register "X" "n" "A1"], [], false⟩ ∧
    getA (runTrace [.connect "X", .register "X" "n" "A1"]).users "X"
      = some ⟨"X", "n", "A1", 0⟩ ∧
    (runTrace [.connect "X", .register "X" "n" "A1"]).queues.qA1 = [⟨"X", "n"⟩] := by
  refine ⟨rfl, by decide, by decide⟩

/-- C9 (amended): the server registers no listener for a leave event; it is
silently ignored — no queue removal, no session dissolution, no partner
notification, no profile removal.  Teardown happens only on transport
disconnect. -/
theorem c9_leave_is_ignored (st : ServerState) (sid : String) :
    step st (.leave sid) = ⟨st, [], false⟩ := rfl

/-- C10 (confirmed): relay delivery for message, signal and typing depends
only on the sender socket's stored room field, its profile entry and the
room membership — never on the session table: two states differing only in
the session table produce identical relay emissions. -/
theorem c10_relay_ignores_session_table (st : ServerState)
    (rooms' : List (String × RoomMeta)) (ev : Event)
    (h : relayEvent ev = true) :
    (step { st with rooms := rooms' } ev).emits = (step st ev).emits := by
  cases ev with
  | signal sid data =>
    by_cases hc : sid ∈ st.connected
    · cases hr : getA st.roomOf sid <;>
        simp [step, hc, handleSignal, hr, roomTargets]
    · simp [step, hc]
  | message sid text =>
    by_cases hc : sid ∈ st.connected
    · cases hu : getA st.users sid <;> cases hr : getA st.roomOf sid <;>
        simp [step, hc, handleMessage, hu, hr, roomTargets]
    · simp [step, hc]
  | typing sid status =>
    by_cases hc : sid ∈ st.connected
    · cases hr : getA st.roomOf sid <;>
        simp [step, hc, handleTyping, hr, roomTargets]
    · simp [step, hc]
  | connect sid => simp [relayEvent] at h
  | register sid n l => simp [relayEvent] at h
  | leave sid => simp [relayEvent] at h
  | disconnect sid => simp [relayEvent] at h
  | sweep now => simp [relayEvent] at h

/-- Witness for C10: after the matched pair, delete the whole session table;
X's signal is still forwarded to Y exactly as before. -/
theorem c10_witness :
    relayEvent (.signal "X" "hello") = true ∧
    (step { runTrace pairTrace with rooms := [] } (.signal "X" "hello")).emits
      = (step (runTrace pairTrace) (.signal "X" "hello")).emits ∧
    (step { runTrace pairTrace with rooms := [] } (.signal "X" "hello")).emits
      = [⟨"Y", OutEvent.signal "hello"⟩] :=
  ⟨rfl, c10_relay_ignores_session_table (runTrace pairTrace) [] (.signal "X" "hello") rfl,
   by decide⟩

end ChatServer
